import Mathlib

/-!
Verification of `src/cloudformation/cloudformation_diff.py` (the `cfndiff`
Ansible module).

Modelling conventions (a shallow embedding at the parsed-document level):

The module is Python-2-only (`long` at line 204, `str.decode` at line 357),
so all semantics below are CPython 2 semantics.

* `PyVal` models the Python values produced by `json.loads` on the documents
  this module handles: booleans, integers (`int` and `long` are both `vint`),
  floats, strings, `None`, lists, and dicts with string keys.  A float leaf
  is represented by its decimal text, the `str()` form the module is the
  only consumer of (line 205); `complex` from the line 204 tuple never
  arises from parsed JSON or YAML and has no constructor.
* Python dicts are modelled as association lists holding the dict CONTENT;
  a dict never holds a duplicate key, which appears below as nodup-keys
  hypotheses.  Python's `==` on such values compares dicts as unordered
  key-to-value maps; this is modelled by comparing the fully key-sorted
  normal forms (`pyNorm`).  The incidental order of the association list is
  never observable: a CPython 2 plain dict iterates in hash-table order,
  and every dict that reaches an output is a plain dict (rebuilt by the
  dict comprehension of `quote_json`, line 209).
* The serialisation round trip `json.dumps` / `cfn_flip.to_json` /
  `json.loads` in `get_json_or_yaml` preserves document content, which is
  all that is observable.  The composition `to_yaml(json.dumps(data))`
  serialises every dict level in CPython 2 hash-table order; absent hash
  collisions that order is a function of the key set alone, modelled here
  by rendering in the canonical key-sorted order (`yamlDump` after
  `pyNorm`) — any fixed function of the key set yields the same equalities
  between outputs.  (Collision tie-breaking, which depends on insertion
  history and platform word size, is outside the model.)
* `sorted()` over the items of a dict with pairwise-distinct string keys
  orders the items by key (tuple comparison never reaches the values); it is
  modelled by a stable insertion sort keyed on the byte-wise string order
  `strLe`, matching Python's lexicographic string comparison.
* Python's `str()` is modelled by `pyStr` (`str(True) = "True"`,
  `str(3) = "3"`, strings unchanged, `str(None) = "None"`, containers
  rendered in a repr style bracketed form).
-/

/-- Parsed document values: the Python values this module manipulates.
`vfloat` carries the decimal text of the float (its `str()` form): the
module never computes with a float, it only stringifies (line 205) and
serialises it. -/
inductive PyVal where
  | vbool : Bool → PyVal
  | vint : Int → PyVal
  | vfloat : String → PyVal
  | vstr : String → PyVal
  | vnull : PyVal
  | vlist : List PyVal → PyVal
  | vdict : List (String × PyVal) → PyVal

mutual
/-- Decidable equality for `PyVal`, written out by hand because `deriving`
does not handle this nested inductive. -/
def decEqV : (a b : PyVal) → Decidable (a = b)
  | .vbool x, .vbool y =>
      match decEq x y with
      | isTrue h => isTrue (by rw [h])
      | isFalse h => isFalse (fun hh => h (by cases hh; rfl))
  | .vint x, .vint y =>
      match decEq x y with
      | isTrue h => isTrue (by rw [h])
      | isFalse h => isFalse (fun hh => h (by cases hh; rfl))
  | .vfloat x, .vfloat y =>
      match decEq x y with
      | isTrue h => isTrue (by rw [h])
      | isFalse h => isFalse (fun hh => h (by cases hh; rfl))
  | .vstr x, .vstr y =>
      match decEq x y with
      | isTrue h => isTrue (by rw [h])
      | isFalse h => isFalse (fun hh => h (by cases hh; rfl))
  | .vnull, .vnull => isTrue rfl
  | .vlist xs, .vlist ys =>
      match decEqL xs ys with
      | isTrue h => isTrue (by rw [h])
      | isFalse h => isFalse (fun hh => h (by cases hh; rfl))
  | .vdict xs, .vdict ys =>
      match decEqKVs xs ys with
      | isTrue h => isTrue (by rw [h])
      | isFalse h => isFalse (fun hh => h (by cases hh; rfl))
  | .vbool _, .vint _ => isFalse (fun h => PyVal.noConfusion h)
  | .vbool _, .vstr _ => isFalse (fun h => PyVal.noConfusion h)
  | .vbool _, .vnull => isFalse (fun h => PyVal.noConfusion h)
  | .vbool _, .vlist _ => isFalse (fun h => PyVal.noConfusion h)
  | .vbool _, .vdict _ => isFalse (fun h => PyVal.noConfusion h)
  | .vint _, .vbool _ => isFalse (fun h => PyVal.noConfusion h)
  | .vint _, .vstr _ => isFalse (fun h => PyVal.noConfusion h)
  | .vint _, .vnull => isFalse (fun h => PyVal.noConfusion h)
  | .vint _, .vlist _ => isFalse (fun h => PyVal.noConfusion h)
  | .vint _, .vdict _ => isFalse (fun h => PyVal.noConfusion h)
  | .vstr _, .vbool _ => isFalse (fun h => PyVal.noConfusion h)
  | .vstr _, .vint _ => isFalse (fun h => PyVal.noConfusion h)
  | .vstr _, .vnull => isFalse (fun h => PyVal.noConfusion h)
  | .vstr _, .vlist _ => isFalse (fun h => PyVal.noConfusion h)
  | .vstr _, .vdict _ => isFalse (fun h => PyVal.noConfusion h)
  | .vnull, .vbool _ => isFalse (fun h => PyVal.noConfusion h)
  | .vnull, .vint _ => isFalse (fun h => PyVal.noConfusion h)
  | .vnull, .vstr _ => isFalse (fun h => PyVal.noConfusion h)
  | .vnull, .vlist _ => isFalse (fun h => PyVal.noConfusion h)
  | .vnull, .vdict _ => isFalse (fun h => PyVal.noConfusion h)
  | .vlist _, .vbool _ => isFalse (fun h => PyVal.noConfusion h)
  | .vlist _, .vint _ => isFalse (fun h => PyVal.noConfusion h)
  | .vlist _, .vstr _ => isFalse (fun h => PyVal.noConfusion h)
  | .vlist _, .vnull => isFalse (fun h => PyVal.noConfusion h)
  | .vlist _, .vdict _ => isFalse (fun h => PyVal.noConfusion h)
  | .vdict _, .vbool _ => isFalse (fun h => PyVal.noConfusion h)
  | .vdict _, .vint _ => isFalse (fun h => PyVal.noConfusion h)
  | .vdict _, .vstr _ => isFalse (fun h => PyVal.noConfusion h)
  | .vdict _, .vnull => isFalse (fun h => PyVal.noConfusion h)
  | .vdict _, .vlist _ => isFalse (fun h => PyVal.noConfusion h)
  | .vfloat _, .vbool _ => isFalse (fun h => PyVal.noConfusion h)
  | .vfloat _, .vint _ => isFalse (fun h => PyVal.noConfusion h)
  | .vfloat _, .vstr _ => isFalse (fun h => PyVal.noConfusion h)
  | .vfloat _, .vnull => isFalse (fun h => PyVal.noConfusion h)
  | .vfloat _, .vlist _ => isFalse (fun h => PyVal.noConfusion h)
  | .vfloat _, .vdict _ => isFalse (fun h => PyVal.noConfusion h)
  | .vbool _, .vfloat _ => isFalse (fun h => PyVal.noConfusion h)
  | .vint _, .vfloat _ => isFalse (fun h => PyVal.noConfusion h)
  | .vstr _, .vfloat _ => isFalse (fun h => PyVal.noConfusion h)
  | .vnull, .vfloat _ => isFalse (fun h => PyVal.noConfusion h)
  | .vlist _, .vfloat _ => isFalse (fun h => PyVal.noConfusion h)
  | .vdict _, .vfloat _ => isFalse (fun h => PyVal.noConfusion h)
/-- Decidable equality for lists of `PyVal`. -/
def decEqL : (xs ys : List PyVal) → Decidable (xs = ys)
  | [], [] => isTrue rfl
  | [], _ :: _ => isFalse (fun h => List.noConfusion h)
  | _ :: _, [] => isFalse (fun h => List.noConfusion h)
  | x :: xs, y :: ys =>
      match decEqV x y, decEqL xs ys with
      | isTrue h1, isTrue h2 => isTrue (by rw [h1, h2])
      | isFalse h1, _ => isFalse (fun h => by injection h with he ht; exact h1 he)
      | _, isFalse h2 => isFalse (fun h => by injection h with he ht; exact h2 ht)
/-- Decidable equality for association lists of `PyVal`. -/
def decEqKVs : (xs ys : List (String × PyVal)) → Decidable (xs = ys)
  | [], [] => isTrue rfl
  | [], _ :: _ => isFalse (fun h => List.noConfusion h)
  | _ :: _, [] => isFalse (fun h => List.noConfusion h)
  | (k1, v1) :: xs, (k2, v2) :: ys =>
      match decEq k1 k2, decEqV v1 v2, decEqKVs xs ys with
      | isTrue hk, isTrue hv, isTrue ht => isTrue (by rw [hk, hv, ht])
      | isFalse hk, _, _ =>
          isFalse (fun h => by injection h with he ht2; exact hk (congrArg Prod.fst he))
      | _, isFalse hv, _ =>
          isFalse (fun h => by injection h with he ht2; exact hv (congrArg Prod.snd he))
      | _, _, isFalse ht => isFalse (fun h => by injection h with he ht2; exact ht ht2)
end

instance : DecidableEq PyVal := decEqV

/-- Byte-wise (code point) lexicographic comparison of character lists,
modelling Python's string ordering.  Written over `Char.toNat` so that the
kernel can evaluate it (the builtin `String.lt` does not reduce). -/
def chLe : List Char → List Char → Bool
  | [], _ => true
  | _ :: _, [] => false
  | a :: as, b :: bs =>
      if a.toNat < b.toNat then true
      else if b.toNat < a.toNat then false
      else chLe as bs

/-- Lexicographic string comparison, modelling Python's `<=` on `str`. -/
def strLe (a b : String) : Bool := chLe a.data b.data

/-- Order on dict entries used to model `sorted(kwargs.items())`: with
pairwise-distinct keys, Python's tuple comparison orders items by key. -/
def keyLE (p q : String × PyVal) : Prop := strLe p.1 q.1 = true

instance : DecidableRel keyLE := fun p q => inferInstanceAs (Decidable (_ = true))

/-- Strict variant of `keyLE`, used to show sorted nodup-key lists are
uniquely determined. -/
def keyLT (p q : String × PyVal) : Prop := keyLE p q ∧ p.1 ≠ q.1

/-- Sorting of dict entries by key (`sorted(kwargs.items())` at line 186 of
the source, restricted to dicts with pairwise-distinct keys).  Insertion
sort is stable, like Python's `sorted`. -/
def sortByKey (l : List (String × PyVal)) : List (String × PyVal) :=
  List.insertionSort keyLE l

mutual
/-- Model of Python's `repr()` on the values of `PyVal` ("\x27" is a single
quote).  Only its bracketed shape matters to the claims. -/
def pyRepr : PyVal → String
  | .vbool b => if b then "True" else "False"
  | .vint n => toString n
  | .vfloat t => t
  | .vstr s => "\x27" ++ s ++ "\x27"
  | .vnull => "None"
  | .vlist xs => "[" ++ String.intercalate ", " (pyReprList xs) ++ "]"
  | .vdict kvs => "\x7b" ++ String.intercalate ", " (pyReprKVs kvs) ++ "\x7d"
def pyReprList : List PyVal → List String
  | [] => []
  | x :: xs => pyRepr x :: pyReprList xs
def pyReprKVs : List (String × PyVal) → List String
  | [] => []
  | (k, v) :: r => ("\x27" ++ k ++ "\x27: " ++ pyRepr v) :: pyReprKVs r
end

/-- Model of Python's `str()`: identity on strings, `repr` otherwise
(`str(True) = "True"`, `str(3) = "3"`, `str(None) = "None"`). -/
def pyStr : PyVal → String
  | .vstr s => s
  | v => pyRepr v

/-- The scalar types enumerated at line 204 of the source:
`type(obj) in (bool, str, int, float, long, complex)`. -/
def isScalar : PyVal → Bool
  | .vbool _ => true
  | .vint _ => true
  | .vfloat _ => true
  | .vstr _ => true
  | _ => false

mutual
/-- Model of `quote_json` (source lines 199 to 210): scalars become their
`str()` form, lists and dicts are rebuilt recursively, anything else (only
`None` here) is returned unchanged.  The dict comprehension at line 209
rebuilds a plain hash-ordered dict; this function returns the dict CONTENT
(the list order is not observable — serialization reorders by key set, see
`get_json_or_yaml` — and the comparison of json results is content-based).
`quote_json(key)` is the identity because keys are strings. -/
def quote_json : PyVal → PyVal
  | .vbool b => .vstr (pyStr (.vbool b))
  | .vint n => .vstr (pyStr (.vint n))
  | .vfloat t => .vstr (pyStr (.vfloat t))
  | .vstr s => .vstr s
  | .vnull => .vnull
  | .vlist xs => .vlist (quoteList xs)
  | .vdict kvs => .vdict (quoteKVs kvs)
def quoteList : List PyVal → List PyVal
  | [] => []
  | x :: xs => quote_json x :: quoteList xs
def quoteKVs : List (String × PyVal) → List (String × PyVal)
  | [] => []
  | (k, v) :: r => (k, quote_json v) :: quoteKVs r
end

mutual
/-- Model of constructing `SortedDict(**data)` (source lines 178 to 191):
entries are sorted by key and the construction recurses into values that are
themselves dicts — and only into those, so dicts inside lists are not
sorted.  The source sorts first and then recurses; since the sort compares
keys only and the recursion preserves keys, recursing first (as written
here, for structural recursion) yields the same list. -/
def sortedVal : PyVal → PyVal
  | .vdict kvs => .vdict (sortByKey (sortedEntries kvs))
  | v => v
def sortedEntries : List (String × PyVal) → List (String × PyVal)
  | [] => []
  | (k, v) :: r => (k, sortedVal v) :: sortedEntries r
end

/-- The entry list of `SortedDict(**kvs)`. -/
def sortedDict (kvs : List (String × PyVal)) : List (String × PyVal) :=
  sortByKey (sortedEntries kvs)

mutual
/-- Key-sorted normal form used to model Python's `==` on parsed values:
two values with nodup-key dicts are Python-equal exactly when their normal
forms coincide (dicts compare as unordered key-to-value maps, lists compare
elementwise, scalars by value). -/
def pyNorm : PyVal → PyVal
  | .vlist xs => .vlist (pyNormList xs)
  | .vdict kvs => .vdict (sortByKey (pyNormKVs kvs))
  | v => v
def pyNormList : List PyVal → List PyVal
  | [] => []
  | x :: xs => pyNorm x :: pyNormList xs
def pyNormKVs : List (String × PyVal) → List (String × PyVal)
  | [] => []
  | (k, v) :: r => (k, pyNorm v) :: pyNormKVs r
end

/-- Model of Python's `!=` between two parsed values (dicts unordered). -/
def pyNe (a b : PyVal) : Bool := !(decide (pyNorm a = pyNorm b))

/-- The two output formats of `get_json_or_yaml`. -/
inductive OutputFormat where
  | json : OutputFormat
  | yaml : OutputFormat

/-- Result of `get_json_or_yaml`: in json mode a Python dict, in yaml mode
the rendered text. -/
inductive GJY where
  | jsonRes : PyVal → GJY
  | yamlRes : String → GJY
deriving DecidableEq

mutual
/-- Modelled from the spec: the composition `to_yaml(json.dumps(data))` of
the external `cfn_flip` library (source line 288) — a deterministic,
order-preserving, type-preserving rendering of the document ("\x7b" and
"\x7d" are braces).  Strings are quoted, so a string scalar never renders
like `null`, a boolean or a number. -/
def yamlDump : PyVal → String
  | .vbool b => if b then "true" else "false"
  | .vint n => toString n
  | .vfloat t => t
  | .vstr s => "\"" ++ s ++ "\""
  | .vnull => "null"
  | .vlist xs => "[" ++ String.intercalate ", " (yamlList xs) ++ "]"
  | .vdict kvs => "\x7b" ++ String.intercalate ", " (yamlKVs kvs) ++ "\x7d"
def yamlList : List PyVal → List String
  | [] => []
  | x :: xs => yamlDump x :: yamlList xs
def yamlKVs : List (String × PyVal) → List String
  | [] => []
  | (k, v) :: r => (k ++ ": " ++ yamlDump v) :: yamlKVs r
end

/-- The canonical dict built by `get_json_or_yaml` before output (source
lines 283 to 284): `data = SortedDict(**data); data = quote_json(data)`.
`SortedDict(**data)` raises `TypeError` when `data` is not a mapping
(keyword expansion requires a mapping), modelled by `none`. -/
def canon_dict (data : PyVal) : Option PyVal :=
  match data with
  | .vdict kvs => some (quote_json (.vdict (sortedDict kvs)))
  | _ => none

/-- Model of `get_json_or_yaml` (source lines 261 to 290) at the
parsed-document level: the `json.dumps` / `to_json` / `json.loads` round
trip preserves the document CONTENT, after which the data is sorted
(`SortedDict`), string-coerced (`quote_json`) and, for yaml output,
rendered as text.  Under CPython 2 (the only interpreter this source runs
on: `long` at line 204, `str.decode` at line 357), every dict that reaches
`json.dumps` at line 285 / 288 is a plain hash-ordered dict rebuilt by the
comprehension at line 209, so the serialised key order at every level is a
function of that dict's key set alone (absent hash collisions); it is
modelled here canonically by rendering the key-sorted normal form,
`yamlDump` after `pyNorm`. -/
def get_json_or_yaml (data : PyVal) (output_format : OutputFormat) : Option GJY :=
  (canon_dict data).map fun q =>
    match output_format with
    | .json => .jsonRes q
    | .yaml => .yamlRes (yamlDump (pyNorm q))

/-- The value `get_json_or_yaml` returns on a dict input, as a total
function. -/
def gjyD (kvs : List (String × PyVal)) (fmt : OutputFormat) : GJY :=
  match fmt with
  | .json => .jsonRes (quote_json (.vdict (sortedDict kvs)))
  | .yaml => .yamlRes (yamlDump (pyNorm (quote_json (.vdict (sortedDict kvs)))))

/-- Model of `d.pop(k, None)` on a dict: remove the entry with key `k`
(a Python dict holds at most one). -/
def popKey (k : String) (kvs : List (String × PyVal)) : List (String × PyVal) :=
  kvs.filter fun p => !(decide (p.1 = k))

/-- Popping the `Description` key from a dict value (source lines 371
to 372); non-dicts do not occur on this path. -/
def popD (v : PyVal) : PyVal :=
  match v with
  | .vdict kvs => .vdict (popKey "Description" kvs)
  | v => v

/-- The loop `for key in hidden_params: d.pop(key, None)` (source lines 416
to 418). -/
def popAll (names : List String) (kvs : List (String × PyVal)) : List (String × PyVal) :=
  names.foldl (fun acc k => popKey k acc) kvs

/-- Model of Python's `d[k] = v` on an insertion-ordered dict: overwrite in
place when the key exists, else append. -/
def setKey (kvs : List (String × PyVal)) (k : String) (v : PyVal) : List (String × PyVal) :=
  if kvs.any fun p => decide (p.1 = k) then
    kvs.map fun p => if p.1 = k then (k, v) else p
  else
    kvs ++ [(k, v)]

/-- Model of `base.copy(); base.update(upd)` (source lines 410 to 411): the
merge of two parameter dicts in which `upd` wins on common keys. -/
def dict_update (base upd : List (String × PyVal)) : List (String × PyVal) :=
  upd.foldl (fun acc p => setKey acc p.1 p.2) base

/-- Model of `cfn_get_default_value_params` (source lines 245 to 258): from
an optional parameter declaration block, keep `name ↦ declared Default` for
exactly the parameters declaring one.  A `None` or empty block gives the
empty dict (the block is falsy).  A non-mapping attribute value makes the
membership test `'Default' in items[i]` meaningless (it raises for scalar
attributes), modelled as `none`; the claims only concern mapping-valued
attribute blocks. -/
def defaultsOf : List (String × PyVal) → Option (List (String × PyVal))
  | [] => some []
  | (k, .vdict attrs) :: rest =>
      match List.lookup "Default" attrs with
      | some d => (defaultsOf rest).map fun r => (k, d) :: r
      | none => defaultsOf rest
  | (_, _) :: _ => none

/-- Entry point of `cfn_get_default_value_params` with its falsy check. -/
def cfn_get_default_value_params : Option PyVal → Option (List (String × PyVal))
  | none => some []
  | some (.vdict kvs) => if kvs.isEmpty then some [] else defaultsOf kvs
  | some _ => none

/-- Model of Python's `str.lower()` on ASCII text (the flag values this
module compares are ASCII), written over `Char.toLower` so the kernel can
evaluate it (`String.map` does not reduce). -/
def strLower (t : String) : String := String.mk (t.data.map Char.toLower)

/-- The per-entry loop of `cfn_get_noecho_param_names` (source lines 236 to
239): collect every name whose attributes contain a `NoEcho` key with
`str(value).lower() == 'true'`. -/
def noechoNames : List (String × PyVal) → Option (List String)
  | [] => some []
  | (k, .vdict attrs) :: rest =>
      match List.lookup "NoEcho" attrs with
      | some f =>
          if strLower (pyStr f) = "true" then (noechoNames rest).map fun r => k :: r
          else noechoNames rest
      | none => noechoNames rest
  | (_, _) :: _ => none

/-- Model of `cfn_get_noecho_param_names` (source lines 230 to 242) with its
falsy check: a `None` or empty block yields the empty list. -/
def cfn_get_noecho_param_names : Option PyVal → Option (List String)
  | none => some []
  | some (.vdict kvs) => if kvs.isEmpty then some [] else noechoNames kvs
  | some _ => none

/-- A remote call either returns a payload or raises (any exception). -/
inductive Fetch (α : Type) where
  | fok : α → Fetch α
  | ferr : String → Fetch α

/-- Model of `CloudFormationServiceManager.describe_stack` (source lines 139
to 150): on any exception the method returns `dict()`; on a successful call
whose `Stacks` payload is empty or missing it calls `module.fail_json`,
aborting the run (`none`); otherwise it returns the first stack. -/
def describe_stack (r : Fetch (Option (List PyVal))) : Option PyVal :=
  match r with
  | .ferr _ => some (.vdict [])
  | .fok resp =>
      match resp with
      | some (s :: _) => some s
      | _ => none

/-- Model of `CloudFormationServiceManager.get_template` (source lines 152
to 160): on any exception it returns `dict()`; otherwise it returns
`response.get('TemplateBody')` (the caller passes `vnull` for a missing
body). -/
def get_template (r : Fetch PyVal) : Option PyVal :=
  match r with
  | .ferr _ => some (.vdict [])
  | .fok tb => some tb

/-- The `changed` computation of `main` (source line 437):
`changed = (cloud_dict != local_dict)` — Python `!=` on the two results,
which are dicts in json mode and strings in yaml mode. -/
def changedFlag : GJY → GJY → Bool
  | .jsonRes a, .jsonRes b => pyNe a b
  | .yamlRes s, .yamlRes t => !(decide (s = t))
  | _, _ => true

/-- Python equality of two `get_json_or_yaml` results, as a proposition. -/
def GJYEqP : GJY → GJY → Prop
  | .jsonRes a, .jsonRes b => pyNorm a = pyNorm b
  | .yamlRes s, .yamlRes t => s = t
  | _, _ => False

/-- The template branch of `main` (source lines 364 to 379) together with
the diff assembly of lines 431 to 443: with `ignore_template_desc` the two
templates are canonicalised to json dicts, `Description` is popped from
both, and both are re-encoded in the requested format; otherwise both are
encoded directly.  The returned triple is (cloud, local, changed). -/
def template_mode (cloud_template local_template : PyVal) (ignore_template_desc : Bool)
    (fmt : OutputFormat) : Option (GJY × GJY × Bool) :=
  match ignore_template_desc with
  | true =>
    match canon_dict cloud_template, canon_dict local_template with
    | some cv, some lv =>
        match get_json_or_yaml (popD cv) fmt, get_json_or_yaml (popD lv) fmt with
        | some cf, some lf => some (cf, lf, changedFlag cf lf)
        | _, _ => none
    | _, _ => none
  | false =>
    match get_json_or_yaml cloud_template fmt, get_json_or_yaml local_template fmt with
    | some cf, some lf => some (cf, lf, changedFlag cf lf)
    | _, _ => none

/-- The parameter branch of `main` (source lines 399 to 422) together with
the diff assembly: canonicalise the explicit parameters and the local
template, extract the template's declared defaults, merge (explicit
parameters win), optionally remove every `NoEcho` parameter from both the
merged local set and the canonicalised remote set, and encode both sides in
the requested format.  The returned triple is (cloud, local, changed). -/
def parameter_mode (local_template local_params : PyVal)
    (cloud_params : List (String × PyVal)) (ignore_hidden_params : Bool)
    (fmt : OutputFormat) : Option (GJY × GJY × Bool) :=
  match canon_dict local_params, canon_dict local_template with
  | some (.vdict ppkvs), some (.vdict ltkvs) =>
      match cfn_get_default_value_params (List.lookup "Parameters" ltkvs) with
      | none => none
      | some templ_def =>
          match ignore_hidden_params with
          | true =>
            match cfn_get_noecho_param_names (List.lookup "Parameters" ltkvs),
                canon_dict (.vdict cloud_params) with
            | some hidden, some (.vdict cpkvs) =>
                match get_json_or_yaml (.vdict (popAll hidden (dict_update templ_def ppkvs))) fmt,
                    get_json_or_yaml (.vdict (popAll hidden cpkvs)) fmt with
                | some lf, some cf => some (cf, lf, changedFlag cf lf)
                | _, _ => none
            | _, _ => none
          | false =>
            match get_json_or_yaml (.vdict (dict_update templ_def ppkvs)) fmt,
                get_json_or_yaml (.vdict cloud_params) fmt with
            | some lf, some cf => some (cf, lf, changedFlag cf lf)
            | _, _ => none
  | _, _ => none

/-- The tags branch of `main` (source lines 425 to 428) together with the
diff assembly.  The returned triple is (cloud, local, changed). -/
def tags_mode (cloud_tags : List (String × PyVal)) (local_tags : PyVal)
    (fmt : OutputFormat) : Option (GJY × GJY × Bool) :=
  match get_json_or_yaml (.vdict cloud_tags) fmt, get_json_or_yaml local_tags fmt with
  | some cf, some lf => some (cf, lf, changedFlag cf lf)
  | _, _ => none

/-- The three values of the `output_choice` module argument. -/
inductive OutputChoice where
  | template : OutputChoice
  | parameter : OutputChoice
  | tags : OutputChoice

/-- The inputs of `main` after the gateway calls and file parsing. -/
structure MainInputs where
  cloud_template : PyVal
  local_template : PyVal
  local_params : PyVal
  cloud_params : List (String × PyVal)
  cloud_tags : List (String × PyVal)
  local_tags : PyVal
  ignore_template_desc : Bool
  ignore_hidden_params : Bool
  output_format : OutputFormat
  output_choice : OutputChoice

/-- Model of `main` (source lines 315 to 446) from the parsed inputs on:
dispatch on `output_choice` and produce the before/after payloads and the
`changed` flag. -/
def main_run (inp : MainInputs) : Option (GJY × GJY × Bool) :=
  match inp.output_choice with
  | .template =>
      template_mode inp.cloud_template inp.local_template inp.ignore_template_desc
        inp.output_format
  | .parameter =>
      parameter_mode inp.local_template inp.local_params inp.cloud_params
        inp.ignore_hidden_params inp.output_format
  | .tags => tags_mode inp.cloud_tags inp.local_tags inp.output_format

mutual
/-- Well-formedness of a parsed value as a Python value: every dict at every
nesting level has pairwise-distinct keys. -/
def ndv : PyVal → Bool
  | .vlist xs => ndList xs
  | .vdict kvs => keysNodup kvs && ndKVs kvs
  | _ => true
def ndList : List PyVal → Bool
  | [] => true
  | x :: xs => ndv x && ndList xs
def ndKVs : List (String × PyVal) → Bool
  | [] => true
  | (_, v) :: r => ndv v && ndKVs r
def keysNodup : List (String × PyVal) → Bool
  | [] => true
  | (k, _) :: r => !(r.any fun q => decide (q.1 = k)) && keysNodup r
end

mutual
/-- Number of `None` leaves in a value. -/
def countNulls : PyVal → Nat
  | .vnull => 1
  | .vlist xs => cnList xs
  | .vdict kvs => cnKVs kvs
  | _ => 0
def cnList : List PyVal → Nat
  | [] => 0
  | x :: xs => countNulls x + cnList xs
def cnKVs : List (String × PyVal) → Nat
  | [] => 0
  | (_, v) :: r => countNulls v + cnKVs r
end

/-- One-hole contexts over `PyVal`: a position inside a document. -/
inductive Ctx where
  | hole : Ctx
  | inList : List PyVal → Ctx → List PyVal → Ctx
  | inDict : List (String × PyVal) → String → Ctx → List (String × PyVal) → Ctx

/-- Plugging a value into a context. -/
def Ctx.fill : Ctx → PyVal → PyVal
  | .hole, v => v
  | .inList pre c post, v => .vlist (pre ++ c.fill v :: post)
  | .inDict pre k c post, v => .vdict (pre ++ (k, c.fill v) :: post)

/-- Number of `None` leaves contributed by the context itself. -/
def ctxCount : Ctx → Nat
  | .hole => 0
  | .inList pre c post => cnList pre + ctxCount c + cnList post
  | .inDict pre _ c post => cnKVs pre + ctxCount c + cnKVs post

/-- Documents related by permuting the entry list of mappings, at any
nesting level including mappings reached through lists: the congruence
closure of entry-list permutation. -/
inductive PermEq : PyVal → PyVal → Prop where
  | refl : ∀ v, PermEq v v
  | trans : ∀ {a b c}, PermEq a b → PermEq b c → PermEq a c
  | permKeys : ∀ {kvs1 kvs2}, List.Perm kvs1 kvs2 → PermEq (.vdict kvs1) (.vdict kvs2)
  | congrEntry : ∀ (pre post : List (String × PyVal)) (k : String) {v1 v2},
      PermEq v1 v2 → PermEq (.vdict (pre ++ (k, v1) :: post)) (.vdict (pre ++ (k, v2) :: post))
  | congrItem : ∀ (pre post : List PyVal) {x y},
      PermEq x y → PermEq (.vlist (pre ++ x :: post)) (.vlist (pre ++ y :: post))

/-- Documents that differ only in the representation of scalar leaves:
scalar leaves may be exchanged for scalar leaves with the same `str()`
form, anywhere in the document. -/
inductive SRE : PyVal → PyVal → Prop where
  | refl : ∀ v, SRE v v
  | trans : ∀ {a b c}, SRE a b → SRE b c → SRE a c
  | leaf : ∀ {a b}, isScalar a = true → isScalar b = true → pyStr a = pyStr b → SRE a b
  | congrEntry : ∀ (pre post : List (String × PyVal)) (k : String) {v1 v2},
      SRE v1 v2 → SRE (.vdict (pre ++ (k, v1) :: post)) (.vdict (pre ++ (k, v2) :: post))
  | congrItem : ∀ (pre post : List PyVal) {x y},
      SRE x y → SRE (.vlist (pre ++ x :: post)) (.vlist (pre ++ y :: post))

/-! Order lemmas for the key comparison, and facts about `sortByKey`. -/

theorem chLe_total : ∀ xs ys, chLe xs ys = true ∨ chLe ys xs = true := by
  intro xs
  induction xs with
  | nil => intro ys; left; rfl
  | cons x xt ih =>
    intro ys
    cases ys with
    | nil => right; rfl
    | cons y yt =>
      by_cases h1 : x.toNat < y.toNat
      · left; simp [chLe, h1]
      · by_cases h2 : y.toNat < x.toNat
        · right; simp [chLe, h2]
        · rcases ih yt with h | h
          · left; simp [chLe, h1, h2, h]
          · right; simp [chLe, h1, h2, h]

theorem chLe_trans : ∀ xs ys zs, chLe xs ys = true → chLe ys zs = true →
    chLe xs zs = true := by
  intro xs
  induction xs with
  | nil => intro ys zs _ _; rfl
  | cons x xt ih =>
    intro ys zs hxy hyz
    cases ys with
    | nil => simp [chLe] at hxy
    | cons y yt =>
      cases zs with
      | nil => simp [chLe] at hyz
      | cons z zt =>
        simp only [chLe] at hxy hyz ⊢
        split_ifs at hxy hyz ⊢ <;>
          first
            | rfl
            | exact Bool.noConfusion hxy
            | exact Bool.noConfusion hyz
            | exact ih yt zt hxy hyz
            | omega

theorem chLe_antisymm : ∀ xs ys, chLe xs ys = true → chLe ys xs = true → xs = ys := by
  intro xs
  induction xs with
  | nil =>
    intro ys _ hba
    cases ys with
    | nil => rfl
    | cons y yt => simp [chLe] at hba
  | cons x xt ih =>
    intro ys hab hba
    cases ys with
    | nil => simp [chLe] at hab
    | cons y yt =>
      simp only [chLe] at hab hba
      by_cases h1 : x.toNat < y.toNat <;> by_cases h2 : y.toNat < x.toNat <;>
        simp [h1, h2] at hab hba
      · omega
      · have hv : x = y := by
          have hn : x.toNat = y.toNat := by omega
          rw [← Char.ofNat_toNat x, ← Char.ofNat_toNat y, hn]
        rw [hv, ih yt hab hba]

theorem strLe_total (a b : String) : strLe a b = true ∨ strLe b a = true :=
  chLe_total a.data b.data

theorem strLe_trans {a b c : String} (h1 : strLe a b = true) (h2 : strLe b c = true) :
    strLe a c = true :=
  chLe_trans a.data b.data c.data h1 h2

theorem strLe_antisymm {a b : String} (h1 : strLe a b = true) (h2 : strLe b a = true) :
    a = b := by
  cases a with
  | mk da =>
    cases b with
    | mk db => exact congrArg String.mk (chLe_antisymm da db h1 h2)

theorem sortByKey_perm (l : List (String × PyVal)) : List.Perm (sortByKey l) l :=
  List.perm_insertionSort keyLE l

theorem sortByKey_sorted (l : List (String × PyVal)) : List.Sorted keyLE (sortByKey l) := by
  letI : IsTotal (String × PyVal) keyLE := ⟨fun a b => strLe_total a.1 b.1⟩
  letI : IsTrans (String × PyVal) keyLE := ⟨fun _ _ _ h h' => strLe_trans h h'⟩
  exact List.sorted_insertionSort keyLE l

theorem keys_sortByKey (l : List (String × PyVal)) :
    List.Perm ((sortByKey l).map Prod.fst) (l.map Prod.fst) :=
  (sortByKey_perm l).map Prod.fst

theorem sortByKey_eq_of_perm {l1 l2 : List (String × PyVal)} (h : List.Perm l1 l2)
    (nd : (l1.map Prod.fst).Nodup) : sortByKey l1 = sortByKey l2 := by
  letI : IsAntisymm (String × PyVal) keyLT :=
    ⟨fun a b hab hba => absurd (strLe_antisymm hab.1 hba.1) hab.2⟩
  have nd2 : (l2.map Prod.fst).Nodup := ((h.map Prod.fst).nodup_iff).mp nd
  have hp : List.Perm (sortByKey l1) (sortByKey l2) :=
    (sortByKey_perm l1).trans (h.trans (sortByKey_perm l2).symm)
  have nds1 : ((sortByKey l1).map Prod.fst).Nodup := ((keys_sortByKey l1).nodup_iff).mpr nd
  have nds2 : ((sortByKey l2).map Prod.fst).Nodup := ((keys_sortByKey l2).nodup_iff).mpr nd2
  have s1 : List.Sorted keyLT (sortByKey l1) := by
    have pne := List.pairwise_map.mp nds1
    exact ((sortByKey_sorted l1).and pne).imp fun hh => ⟨hh.1, hh.2⟩
  have s2 : List.Sorted keyLT (sortByKey l2) := by
    have pne := List.pairwise_map.mp nds2
    exact ((sortByKey_sorted l2).and pne).imp fun hh => ⟨hh.1, hh.2⟩
  exact List.eq_of_perm_of_sorted hp s1 s2

/-! Map forms of the mutually recursive entry traversals. -/

theorem quoteList_eq_map (xs : List PyVal) : quoteList xs = xs.map quote_json := by
  induction xs with
  | nil => simp [quoteList]
  | cons x xt ih => simp [quoteList, ih]

theorem quoteKVs_eq_map (l : List (String × PyVal)) :
    quoteKVs l = l.map fun p => (p.1, quote_json p.2) := by
  induction l with
  | nil => simp [quoteKVs]
  | cons p r ih => cases p; simp [quoteKVs, ih]

theorem pyNormList_eq_map (xs : List PyVal) : pyNormList xs = xs.map pyNorm := by
  induction xs with
  | nil => simp [pyNormList]
  | cons x xt ih => simp [pyNormList, ih]

theorem pyNormKVs_eq_map (l : List (String × PyVal)) :
    pyNormKVs l = l.map fun p => (p.1, pyNorm p.2) := by
  induction l with
  | nil => simp [pyNormKVs]
  | cons p r ih => cases p; simp [pyNormKVs, ih]

theorem sortedEntries_eq_map (l : List (String × PyVal)) :
    sortedEntries l = l.map fun p => (p.1, sortedVal p.2) := by
  induction l with
  | nil => simp [sortedEntries]
  | cons p r ih => cases p; simp [sortedEntries, ih]

theorem nq_dict (kvs : List (String × PyVal)) :
    pyNorm (quote_json (.vdict kvs))
      = .vdict (sortByKey (kvs.map fun p => (p.1, pyNorm (quote_json p.2)))) := by
  simp [quote_json, pyNorm, quoteKVs_eq_map, pyNormKVs_eq_map, List.map_map]
  rfl

theorem nq_list (xs : List PyVal) :
    pyNorm (quote_json (.vlist xs)) = .vlist (xs.map fun x => pyNorm (quote_json x)) := by
  simp [quote_json, pyNorm, quoteList_eq_map, pyNormList_eq_map, List.map_map]

/-! Well-formedness plumbing. -/

theorem keysNodup_iff (l : List (String × PyVal)) :
    keysNodup l = true ↔ (l.map Prod.fst).Nodup := by
  induction l with
  | nil => simp [keysNodup]
  | cons p r ih =>
    cases p with
    | mk k v =>
      simp only [keysNodup, Bool.and_eq_true, Bool.not_eq_true', List.any_eq_false,
        List.map_cons, List.nodup_cons, ih, List.mem_map, decide_eq_false_iff_not,
        decide_eq_true_eq]
      constructor
      · rintro ⟨h1, h2⟩
        exact ⟨fun ⟨q, hq, hqe⟩ => h1 q hq hqe, h2⟩
      · rintro ⟨h1, h2⟩
        exact ⟨fun q hq hqe => h1 ⟨q, hq, hqe⟩, h2⟩

theorem ndKVs_append (a b : List (String × PyVal)) :
    ndKVs (a ++ b) = (ndKVs a && ndKVs b) := by
  induction a with
  | nil => simp [ndKVs]
  | cons p r ih => cases p; simp [ndKVs, ih, Bool.and_assoc]

theorem ndList_append (a b : List PyVal) : ndList (a ++ b) = (ndList a && ndList b) := by
  induction a with
  | nil => simp [ndList]
  | cons x r ih => simp [ndList, ih, Bool.and_assoc]

theorem ndKVs_eq_all (l : List (String × PyVal)) : ndKVs l = l.all fun p => ndv p.2 := by
  induction l with
  | nil => simp [ndKVs]
  | cons p r ih => cases p; simp [ndKVs, ih]

theorem keysNodup_eq_of_keys_eq {l1 l2 : List (String × PyVal)}
    (h : l1.map Prod.fst = l2.map Prod.fst) : keysNodup l1 = keysNodup l2 := by
  rcases hh : keysNodup l2 with _ | _
  · rcases hhh : keysNodup l1 with _ | _
    · rfl
    · exact absurd ((keysNodup_iff l2).mpr (h ▸ (keysNodup_iff l1).mp hhh)) (by simp [hh])
  · exact (keysNodup_iff l1).mpr (h ▸ (keysNodup_iff l2).mp hh)

theorem ndv_dict_keys {kvs : List (String × PyVal)} (h : ndv (.vdict kvs) = true) :
    (kvs.map Prod.fst).Nodup := by
  simp only [ndv, Bool.and_eq_true] at h
  exact (keysNodup_iff kvs).mp h.1

theorem ndv_dict_values {kvs : List (String × PyVal)} (h : ndv (.vdict kvs) = true) :
    ndKVs kvs = true := by
  simp only [ndv, Bool.and_eq_true] at h
  exact h.2

theorem ndv_dict_middle {pre post : List (String × PyVal)} {k : String} {v : PyVal}
    (h : ndv (.vdict (pre ++ (k, v) :: post)) = true) : ndv v = true := by
  have h2 := ndv_dict_values h
  rw [ndKVs_append] at h2
  simp only [Bool.and_eq_true, ndKVs] at h2
  exact h2.2.1

theorem ndv_list_middle {pre post : List PyVal} {x : PyVal}
    (h : ndv (.vlist (pre ++ x :: post)) = true) : ndv x = true := by
  simp only [ndv] at h
  rw [ndList_append] at h
  simp only [Bool.and_eq_true, ndList] at h
  exact h.2.1

/-! Preservation of well-formedness along `PermEq`, and symmetry. -/

theorem permEq_ndv {a b : PyVal} (h : PermEq a b) : ndv a = true → ndv b = true := by
  induction h with
  | refl => exact id
  | trans h1 h2 ih1 ih2 => exact fun hh => ih2 (ih1 hh)
  | @permKeys kvs1 kvs2 hp =>
    intro hnd
    simp only [ndv, Bool.and_eq_true] at hnd ⊢
    obtain ⟨hk, hv⟩ := hnd
    refine ⟨?_, ?_⟩
    · exact (keysNodup_iff kvs2).mpr (((hp.map Prod.fst).nodup_iff).mp ((keysNodup_iff kvs1).mp hk))
    · rw [ndKVs_eq_all, List.all_eq_true] at hv ⊢
      exact fun p hp2 => hv p (hp.mem_iff.mpr hp2)
  | @congrEntry pre post k v1 v2 hv ih =>
    intro hnd
    simp only [ndv, Bool.and_eq_true] at hnd ⊢
    obtain ⟨hk, hvals⟩ := hnd
    refine ⟨?_, ?_⟩
    · rw [@keysNodup_eq_of_keys_eq (pre ++ (k, v2) :: post) (pre ++ (k, v1) :: post) (by simp)]
      exact hk
    · rw [ndKVs_append] at hvals ⊢
      simp only [Bool.and_eq_true, ndKVs] at hvals ⊢
      exact ⟨hvals.1, ih hvals.2.1, hvals.2.2⟩
  | @congrItem pre post x y hx ih =>
    intro hnd
    simp only [ndv] at hnd ⊢
    rw [ndList_append] at hnd ⊢
    simp only [Bool.and_eq_true, ndList] at hnd ⊢
    exact ⟨hnd.1, ih hnd.2.1, hnd.2.2⟩

theorem permEq_symm {a b : PyVal} (h : PermEq a b) : PermEq b a := by
  induction h with
  | refl => exact PermEq.refl _
  | trans _ _ ih1 ih2 => exact ih2.trans ih1
  | permKeys hp => exact PermEq.permKeys hp.symm
  | congrEntry pre post k _ ih => exact PermEq.congrEntry pre post k ih
  | congrItem pre post _ ih => exact PermEq.congrItem pre post ih

/-! Core order-invariance lemmas. -/

theorem permEq_nq {a b : PyVal} (h : PermEq a b) :
    ndv a = true → pyNorm (quote_json a) = pyNorm (quote_json b) := by
  induction h with
  | refl => exact fun _ => rfl
  | trans h1 h2 ih1 ih2 => exact fun hh => (ih1 hh).trans (ih2 (permEq_ndv h1 hh))
  | @permKeys kvs1 kvs2 hp =>
    intro hnd
    rw [nq_dict, nq_dict]
    congr 1
    apply sortByKey_eq_of_perm (hp.map _)
    rw [List.map_map]
    exact ndv_dict_keys hnd
  | @congrEntry pre post k v1 v2 hv ih =>
    intro hnd
    have hmid := ih (ndv_dict_middle hnd)
    rw [nq_dict, nq_dict]
    simp only [List.map_append, List.map_cons, hmid]
  | @congrItem pre post x y hx ih =>
    intro hnd
    have hmid := ih (ndv_list_middle hnd)
    rw [nq_list, nq_list]
    simp only [List.map_append, List.map_cons, hmid]

mutual
theorem permEq_sortedVal : ∀ v : PyVal, PermEq v (sortedVal v)
  | .vdict kvs => by
      rw [sortedVal]
      have h1 : PermEq (.vdict kvs) (.vdict (sortedEntries kvs)) := by
        have hc := permEq_chain [] kvs
        simpa using hc
      have h2 : PermEq (.vdict (sortedEntries kvs))
          (.vdict (sortByKey (sortedEntries kvs))) :=
        PermEq.permKeys (sortByKey_perm (sortedEntries kvs)).symm
      exact h1.trans h2
  | .vbool b => by simp only [sortedVal]; exact PermEq.refl _
  | .vint n => by simp only [sortedVal]; exact PermEq.refl _
  | .vfloat t => by simp only [sortedVal]; exact PermEq.refl _
  | .vstr s => by simp only [sortedVal]; exact PermEq.refl _
  | .vnull => by simp only [sortedVal]; exact PermEq.refl _
  | .vlist xs => by simp only [sortedVal]; exact PermEq.refl _
termination_by v => sizeOf v
theorem permEq_chain : ∀ (acc kvs : List (String × PyVal)),
    PermEq (.vdict (acc ++ kvs)) (.vdict (acc ++ sortedEntries kvs))
  | acc, [] => by rw [sortedEntries]; exact PermEq.refl _
  | acc, (k, v) :: rest => by
      have step : PermEq (.vdict (acc ++ (k, v) :: rest))
          (.vdict (acc ++ (k, sortedVal v) :: rest)) :=
        PermEq.congrEntry acc rest k (permEq_sortedVal v)
      have next := permEq_chain (acc ++ [(k, sortedVal v)]) rest
      rw [sortedEntries]
      refine step.trans ?_
      simpa using next
termination_by acc kvs => sizeOf kvs
end

/-! Scalar-representation equivalence machinery. -/

theorem quote_scalar {v : PyVal} (h : isScalar v = true) :
    quote_json v = .vstr (pyStr v) := by
  cases v <;> simp [isScalar] at h <;> simp [quote_json, pyStr]

theorem sortedVal_scalar {v : PyVal} (h : isScalar v = true) : sortedVal v = v := by
  cases v <;> simp [isScalar] at h <;> simp [sortedVal]

theorem sortedVal_vlist (xs : List PyVal) : sortedVal (.vlist xs) = .vlist xs := by
  simp [sortedVal]

theorem oi_congr {a b : String × PyVal} {l1 l2 : List (String × PyVal)}
    (hab : a.1 = b.1 ∧ quote_json a.2 = quote_json b.2)
    (h : List.Forall₂ (fun p q => p.1 = q.1 ∧ quote_json p.2 = quote_json q.2) l1 l2) :
    List.Forall₂ (fun p q => p.1 = q.1 ∧ quote_json p.2 = quote_json q.2)
      (List.orderedInsert keyLE a l1) (List.orderedInsert keyLE b l2) := by
  induction h with
  | nil => exact List.Forall₂.cons hab List.Forall₂.nil
  | @cons x y xs ys hxy htail ih =>
    by_cases hc : keyLE a x
    · have hc2 : keyLE b y := by
        unfold keyLE at hc ⊢
        rw [← hxy.1, ← hab.1]
        exact hc
      rw [List.orderedInsert, List.orderedInsert, if_pos hc, if_pos hc2]
      exact List.Forall₂.cons hab (List.Forall₂.cons hxy htail)
    · have hc2 : ¬ keyLE b y := by
        unfold keyLE at hc ⊢
        rw [← hxy.1, ← hab.1]
        exact hc
      rw [List.orderedInsert, List.orderedInsert, if_neg hc, if_neg hc2]
      exact List.Forall₂.cons hxy ih

theorem isort_congr {l1 l2 : List (String × PyVal)}
    (h : List.Forall₂ (fun p q => p.1 = q.1 ∧ quote_json p.2 = quote_json q.2) l1 l2) :
    List.Forall₂ (fun p q => p.1 = q.1 ∧ quote_json p.2 = quote_json q.2)
      (sortByKey l1) (sortByKey l2) := by
  induction h with
  | nil => exact List.Forall₂.nil
  | cons hxy htail ih =>
    unfold sortByKey List.insertionSort
    exact oi_congr hxy ih

theorem mapq_eq_of_forall₂ {m1 m2 : List (String × PyVal)}
    (h : List.Forall₂ (fun p q => p.1 = q.1 ∧ quote_json p.2 = quote_json q.2) m1 m2) :
    m1.map (fun p => (p.1, quote_json p.2)) = m2.map (fun p => (p.1, quote_json p.2)) := by
  induction h with
  | nil => rfl
  | cons hxy _ ih => simp [hxy.1, hxy.2, ih]

theorem sre_quote {a b : PyVal} (h : SRE a b) :
    quote_json (sortedVal a) = quote_json (sortedVal b) ∧ quote_json a = quote_json b := by
  induction h with
  | refl => exact ⟨rfl, rfl⟩
  | trans _ _ ih1 ih2 => exact ⟨ih1.1.trans ih2.1, ih1.2.trans ih2.2⟩
  | leaf ha hb hs =>
    rw [sortedVal_scalar ha, sortedVal_scalar hb]
    constructor <;> rw [quote_scalar ha, quote_scalar hb, hs]
  | @congrEntry pre post k v1 v2 hv ih =>
    have hf : List.Forall₂ (fun p q => p.1 = q.1 ∧ quote_json p.2 = quote_json q.2)
        (sortedEntries (pre ++ (k, v1) :: post)) (sortedEntries (pre ++ (k, v2) :: post)) := by
      rw [sortedEntries_eq_map, sortedEntries_eq_map]
      simp only [List.map_append, List.map_cons]
      refine List.rel_append ?_ (List.Forall₂.cons ⟨rfl, ih.1⟩ ?_) <;>
        exact List.forall₂_same.mpr fun x _ => ⟨rfl, rfl⟩
    constructor
    · rw [sortedVal, sortedVal]
      simp only [quote_json]
      rw [quoteKVs_eq_map, quoteKVs_eq_map]
      exact congrArg PyVal.vdict (mapq_eq_of_forall₂ (isort_congr hf))
    · simp only [quote_json]
      rw [quoteKVs_eq_map, quoteKVs_eq_map]
      simp only [List.map_append, List.map_cons, ih.2]
  | @congrItem pre post x y hx ih =>
    have h2 : quote_json (.vlist (pre ++ x :: post)) = quote_json (.vlist (pre ++ y :: post)) := by
      simp only [quote_json]
      rw [quoteList_eq_map, quoteList_eq_map]
      simp only [List.map_append, List.map_cons, ih.2]
    exact ⟨by rw [sortedVal_vlist, sortedVal_vlist]; exact h2, h2⟩

theorem sre_isdict {a b : PyVal} (h : SRE a b) :
    (∃ kvs, a = PyVal.vdict kvs) ↔ (∃ kvs, b = PyVal.vdict kvs) := by
  induction h with
  | refl => exact Iff.rfl
  | trans _ _ ih1 ih2 => exact ih1.trans ih2
  | @leaf a b ha hb _ =>
    constructor
    · rintro ⟨kvs, rfl⟩; simp [isScalar] at ha
    · rintro ⟨kvs, rfl⟩; simp [isScalar] at hb
  | congrEntry pre post k _ _ => exact ⟨fun _ => ⟨_, rfl⟩, fun _ => ⟨_, rfl⟩⟩
  | congrItem pre post _ _ =>
    constructor
    · rintro ⟨kvs, h⟩; exact absurd h (by simp)
    · rintro ⟨kvs, h⟩; exact absurd h (by simp)

/-! Counting null leaves. -/

theorem cnList_append (a b : List PyVal) : cnList (a ++ b) = cnList a + cnList b := by
  induction a with
  | nil => simp [cnList]
  | cons x r ih => simp [cnList, ih]; omega

theorem cnKVs_append (a b : List (String × PyVal)) :
    cnKVs (a ++ b) = cnKVs a + cnKVs b := by
  induction a with
  | nil => simp [cnKVs]
  | cons p r ih => cases p; simp [cnKVs, ih]; omega

theorem cnKVs_eq_sum (l : List (String × PyVal)) :
    cnKVs l = (l.map fun p => countNulls p.2).sum := by
  induction l with
  | nil => simp [cnKVs]
  | cons p r ih => cases p; simp [cnKVs, ih]

theorem cnKVs_perm {l1 l2 : List (String × PyVal)} (h : List.Perm l1 l2) :
    cnKVs l1 = cnKVs l2 := by
  rw [cnKVs_eq_sum, cnKVs_eq_sum]
  exact (h.map _).sum_eq

mutual
theorem countNulls_quote : ∀ v : PyVal, countNulls (quote_json v) = countNulls v
  | .vbool b => by simp [quote_json, countNulls]
  | .vint n => by simp [quote_json, countNulls]
  | .vfloat t => by simp [quote_json, countNulls]
  | .vstr s => by simp [quote_json, countNulls]
  | .vnull => by simp [quote_json]
  | .vlist xs => by
      simp only [quote_json, countNulls]
      exact cn_quoteList xs
  | .vdict kvs => by
      simp only [quote_json, countNulls]
      exact cn_quoteKVs kvs
termination_by v => sizeOf v
theorem cn_quoteList : ∀ xs : List PyVal, cnList (quoteList xs) = cnList xs
  | [] => by simp [quoteList]
  | x :: xs => by
      simp only [quoteList, cnList]
      rw [countNulls_quote x, cn_quoteList xs]
termination_by xs => sizeOf xs
theorem cn_quoteKVs : ∀ l : List (String × PyVal), cnKVs (quoteKVs l) = cnKVs l
  | [] => by simp [quoteKVs]
  | (k, v) :: r => by
      simp only [quoteKVs, cnKVs]
      rw [countNulls_quote v, cn_quoteKVs r]
termination_by l => sizeOf l
end

mutual
theorem countNulls_sortedVal : ∀ v : PyVal, countNulls (sortedVal v) = countNulls v
  | .vbool b => by simp [sortedVal]
  | .vint n => by simp [sortedVal]
  | .vfloat t => by simp [sortedVal]
  | .vstr s => by simp [sortedVal]
  | .vnull => by simp [sortedVal]
  | .vlist xs => by simp [sortedVal]
  | .vdict kvs => by
      rw [sortedVal]
      simp only [countNulls]
      rw [cnKVs_perm (sortByKey_perm (sortedEntries kvs))]
      exact cn_sortedEntries kvs
termination_by v => sizeOf v
theorem cn_sortedEntries : ∀ l : List (String × PyVal), cnKVs (sortedEntries l) = cnKVs l
  | [] => by simp [sortedEntries]
  | (k, v) :: r => by
      simp only [sortedEntries, cnKVs]
      rw [countNulls_sortedVal v, cn_sortedEntries r]
termination_by l => sizeOf l
end

mutual
theorem countNulls_pyNorm : ∀ v : PyVal, countNulls (pyNorm v) = countNulls v
  | .vbool b => by simp [pyNorm]
  | .vint n => by simp [pyNorm]
  | .vfloat t => by simp [pyNorm]
  | .vstr s => by simp [pyNorm]
  | .vnull => by simp [pyNorm]
  | .vlist xs => by
      simp only [pyNorm, countNulls]
      exact cn_pyNormList xs
  | .vdict kvs => by
      simp only [pyNorm, countNulls]
      rw [cnKVs_perm (sortByKey_perm (pyNormKVs kvs))]
      exact cn_pyNormKVs kvs
termination_by v => sizeOf v
theorem cn_pyNormList : ∀ xs : List PyVal, cnList (pyNormList xs) = cnList xs
  | [] => by simp [pyNormList]
  | x :: xs => by
      simp only [pyNormList, cnList]
      rw [countNulls_pyNorm x, cn_pyNormList xs]
termination_by xs => sizeOf xs
theorem cn_pyNormKVs : ∀ l : List (String × PyVal), cnKVs (pyNormKVs l) = cnKVs l
  | [] => by simp [pyNormKVs]
  | (k, v) :: r => by
      simp only [pyNormKVs, cnKVs]
      rw [countNulls_pyNorm v, cn_pyNormKVs r]
termination_by l => sizeOf l
end

theorem countNulls_fill (c : Ctx) (v : PyVal) :
    countNulls (c.fill v) = ctxCount c + countNulls v := by
  induction c with
  | hole => simp [Ctx.fill, ctxCount]
  | inList pre c post ih =>
    simp only [Ctx.fill, ctxCount, countNulls, cnList_append, cnList]
    omega
  | inDict pre k c post ih =>
    simp only [Ctx.fill, ctxCount, countNulls, cnKVs_append, cnKVs]
    omega

theorem countNulls_canon {d x : PyVal} (h : canon_dict d = some x) :
    countNulls x = countNulls d := by
  cases d <;> simp [canon_dict] at h
  case vdict kvs =>
    rw [← h, countNulls_quote]
    simp only [countNulls, sortedDict]
    rw [cnKVs_perm (sortByKey_perm (sortedEntries kvs)), cn_sortedEntries]

theorem changedFlag_self (x : GJY) : changedFlag x x = false := by
  cases x <;> simp [changedFlag, pyNe]

/-- C1.  Order invariance: permuting the keys of any mapping at any
nesting level (including mappings reached only through lists) before
canonicalizing yields a canonical result that is equal, as a Python value,
to the canonical result of the original document, in either target format
(in the yaml format the rendered texts are identical strings), and the
comparison of the two results registers no change.  The hypothesis
`ndv (.vdict kvs1) = true` states that every mapping in the document has
pairwise-distinct keys, which holds of every parsed JSON/YAML document. -/
theorem c1_order_invariance :
    ∀ kvs1 kvs2, PermEq (.vdict kvs1) (.vdict kvs2) → ndv (.vdict kvs1) = true →
      ∀ fmt r1 r2, get_json_or_yaml (.vdict kvs1) fmt = some r1 →
        get_json_or_yaml (.vdict kvs2) fmt = some r2 →
        GJYEqP r1 r2 ∧ changedFlag r1 r2 = false := by
  intro kvs1 kvs2 hperm hnd fmt r1 r2 h1 h2
  have hchain : PermEq (sortedVal (.vdict kvs1)) (sortedVal (.vdict kvs2)) :=
    (permEq_symm (permEq_sortedVal _)).trans (hperm.trans (permEq_sortedVal _))
  have hnds : ndv (sortedVal (.vdict kvs1)) = true :=
    permEq_ndv (permEq_sortedVal _) hnd
  have hkey : pyNorm (quote_json (sortedVal (.vdict kvs1)))
      = pyNorm (quote_json (sortedVal (.vdict kvs2))) := permEq_nq hchain hnds
  rw [sortedVal, sortedVal] at hkey
  cases fmt with
  | json =>
    simp only [get_json_or_yaml, canon_dict, Option.map_some', Option.some_inj] at h1 h2
    subst h1; subst h2
    simp only [sortedDict]
    refine ⟨hkey, ?_⟩
    simp [changedFlag, pyNe, hkey]
  | yaml =>
    simp only [get_json_or_yaml, canon_dict, Option.map_some', Option.some_inj] at h1 h2
    subst h1; subst h2
    simp only [sortedDict]
    rw [hkey]
    exact ⟨rfl, changedFlag_self _⟩

/-- Witness for C1: permuting the keys of a mapping reached only through a
list leaves both yaml results equal and the comparison unchanged. -/
theorem c1_order_invariance_witness :
    GJYEqP (gjyD [("L", .vlist [.vdict [("x", .vstr "1"), ("y", .vstr "2")]])] .yaml)
        (gjyD [("L", .vlist [.vdict [("y", .vstr "2"), ("x", .vstr "1")]])] .yaml)
    ∧ changedFlag (gjyD [("L", .vlist [.vdict [("x", .vstr "1"), ("y", .vstr "2")]])] .yaml)
        (gjyD [("L", .vlist [.vdict [("y", .vstr "2"), ("x", .vstr "1")]])] .yaml) = false :=
  c1_order_invariance
    [("L", .vlist [.vdict [("x", .vstr "1"), ("y", .vstr "2")]])]
    [("L", .vlist [.vdict [("y", .vstr "2"), ("x", .vstr "1")]])]
    (PermEq.congrEntry [] [] "L"
      (PermEq.congrItem [] [] (PermEq.permKeys (List.Perm.swap _ _ _))))
    (by decide) .yaml _ _ rfl rfl

/-- C2.  Canonicalisation coerces every scalar leaf (boolean, integer,
float, string) to its `str()` form, and two documents that differ only in
the representation of scalar leaves (equal `str()` forms) canonicalise to
identical results in either target format. -/
theorem c2_type_coercion :
    (∀ v : PyVal, isScalar v = true → quote_json v = .vstr (pyStr v))
    ∧ (∀ a b : PyVal, SRE a b → ∀ fmt, get_json_or_yaml a fmt = get_json_or_yaml b fmt) := by
  constructor
  · exact fun v h => quote_scalar h
  · intro a b h fmt
    have hq := (sre_quote h).1
    have hc : canon_dict a = canon_dict b := by
      by_cases hd : ∃ kvs, a = PyVal.vdict kvs
      · obtain ⟨kvs1, rfl⟩ := hd
        obtain ⟨kvs2, rfl⟩ := (sre_isdict h).mp ⟨kvs1, rfl⟩
        rw [sortedVal, sortedVal] at hq
        simp only [canon_dict]
        rw [show sortedDict kvs1 = sortByKey (sortedEntries kvs1) from rfl,
          show sortedDict kvs2 = sortByKey (sortedEntries kvs2) from rfl]
        rw [hq]
      · have hd2 : ¬ ∃ kvs, b = PyVal.vdict kvs := fun hh => hd ((sre_isdict h).mpr hh)
        have e1 : canon_dict a = none := by
          cases a <;> simp [canon_dict] <;> exact hd ⟨_, rfl⟩
        have e2 : canon_dict b = none := by
          cases b <;> simp [canon_dict] <;> exact hd2 ⟨_, rfl⟩
        rw [e1, e2]
    simp [get_json_or_yaml, hc]

/-- Witness for C2: the documented example, canonicalising the dicts
holding `1` and `"1"` under key `"a"`, plus a float leaf `1.5` against the
string `"1.5"`. -/
theorem c2_type_coercion_witness :
    quote_json (.vint 1) = .vstr (pyStr (.vint 1))
    ∧ quote_json (.vfloat "1.5") = .vstr (pyStr (.vfloat "1.5"))
    ∧ get_json_or_yaml (.vdict [("a", .vint 1)]) .json
      = get_json_or_yaml (.vdict [("a", .vstr "1")]) .json
    ∧ get_json_or_yaml (.vdict [("a", .vfloat "1.5")]) .yaml
      = get_json_or_yaml (.vdict [("a", .vstr "1.5")]) .yaml := by
  refine ⟨?_, ?_, ?_, ?_⟩
  · exact c2_type_coercion.1 (.vint 1) (by decide)
  · exact c2_type_coercion.1 (.vfloat "1.5") (by decide)
  · exact c2_type_coercion.2 _ _
      (SRE.congrEntry [] [] "a" (SRE.leaf (by decide) (by decide) (by decide))) .json
  · exact c2_type_coercion.2 _ _
      (SRE.congrEntry [] [] "a" (SRE.leaf (by decide) (by decide) (by decide))) .yaml

/-- C10.  A null leaf is left unchanged by the scalar coercion of
canonicalisation (never turned into a string): `quote_json` maps `None` to
itself and preserves the number of null leaves of every document.
Consequently, a document holding null at some position (a one-hole context)
and the otherwise-identical document holding any string there canonicalise
to different json results and the comparator reports a change. -/
theorem c10_null_preserved :
    (quote_json .vnull = .vnull)
    ∧ (∀ v : PyVal, countNulls (quote_json v) = countNulls v)
    ∧ (∀ (c : Ctx) (s : String) (x y : PyVal),
        canon_dict (c.fill .vnull) = some x → canon_dict (c.fill (.vstr s)) = some y →
        pyNorm x ≠ pyNorm y ∧ changedFlag (.jsonRes x) (.jsonRes y) = true) := by
  refine ⟨rfl, countNulls_quote, ?_⟩
  intro c s x y hx hy
  have cx : countNulls x = ctxCount c + 1 := by
    rw [countNulls_canon hx, countNulls_fill]
    simp [countNulls]
  have cy : countNulls y = ctxCount c := by
    rw [countNulls_canon hy, countNulls_fill]
    simp [countNulls]
  have hne : pyNorm x ≠ pyNorm y := by
    intro he
    have e1 : countNulls x = countNulls y := by
      rw [← countNulls_pyNorm x, ← countNulls_pyNorm y, he]
    omega
  exact ⟨hne, by simp [changedFlag, pyNe, hne]⟩

/-- Witness for C10 at a concrete context and string. -/
theorem c10_null_preserved_witness :
    canon_dict ((Ctx.inDict [] "a" Ctx.hole []).fill .vnull) = some (.vdict [("a", .vnull)])
    ∧ canon_dict ((Ctx.inDict [] "a" Ctx.hole []).fill (.vstr "None"))
      = some (.vdict [("a", .vstr "None")])
    ∧ changedFlag (.jsonRes (.vdict [("a", .vnull)]))
        (.jsonRes (.vdict [("a", .vstr "None")])) = true := by
  refine ⟨by decide, by decide, ?_⟩
  exact (c10_null_preserved.2.2 (Ctx.inDict [] "a" Ctx.hole []) "None" _ _
    (by decide) (by decide)).2

/-! Lookup lemmas for the dict operations of the parameter resolver. -/

theorem lookup_cons_self {k : String} {v : PyVal} (r : List (String × PyVal)) :
    List.lookup k ((k, v) :: r) = some v := by
  rw [List.lookup_cons, beq_self_eq_true]

theorem lookup_cons_ne {q k : String} {v : PyVal} (hne : q ≠ k) (r : List (String × PyVal)) :
    List.lookup q ((k, v) :: r) = List.lookup q r := by
  rw [List.lookup_cons, beq_eq_false_iff_ne.mpr hne]

theorem lookup_eq_none_of_not_mem {k : String} {l : List (String × PyVal)}
    (h : k ∉ l.map Prod.fst) : List.lookup k l = none := by
  induction l with
  | nil => rfl
  | cons p r ih =>
    obtain ⟨pk, pv⟩ := p
    simp only [List.map_cons, List.mem_cons, not_or] at h
    rw [lookup_cons_ne h.1]
    exact ih h.2

theorem lookup_map_overwrite {q k : String} {v : PyVal} (hne : q ≠ k)
    (kvs : List (String × PyVal)) :
    List.lookup q (kvs.map fun p => if p.1 = k then (k, v) else p) = List.lookup q kvs := by
  induction kvs with
  | nil => rfl
  | cons p r ih =>
    obtain ⟨pk, pv⟩ := p
    by_cases hp : pk = k
    · subst hp
      have hm : ((pk, pv) :: r).map (fun p => if p.1 = pk then (pk, v) else p)
          = (pk, v) :: r.map (fun p => if p.1 = pk then (pk, v) else p) := by simp
      rw [hm, lookup_cons_ne hne, lookup_cons_ne hne]
      exact ih
    · have hm : ((pk, pv) :: r).map (fun p => if p.1 = k then (k, v) else p)
          = (pk, pv) :: r.map (fun p => if p.1 = k then (k, v) else p) := by simp [hp]
      rw [hm]
      by_cases hq : q = pk
      · subst hq
        rw [lookup_cons_self, lookup_cons_self]
      · rw [lookup_cons_ne hq, lookup_cons_ne hq]
        exact ih

theorem lookup_append_single {q k : String} {v : PyVal} (hne : q ≠ k)
    (kvs : List (String × PyVal)) :
    List.lookup q (kvs ++ [(k, v)]) = List.lookup q kvs := by
  induction kvs with
  | nil => simp [lookup_cons_ne hne]
  | cons p r ih =>
    obtain ⟨pk, pv⟩ := p
    by_cases hq : q = pk
    · subst hq
      simp only [List.cons_append]
      rw [lookup_cons_self, lookup_cons_self]
    · simp only [List.cons_append]
      rw [lookup_cons_ne hq, lookup_cons_ne hq]
      exact ih

theorem lookup_setKey (kvs : List (String × PyVal)) (k : String) (v : PyVal) (q : String) :
    List.lookup q (setKey kvs k v) = if q = k then some v else List.lookup q kvs := by
  by_cases hq : q = k
  · subst hq
    rw [if_pos rfl]
    unfold setKey
    by_cases hmem : (kvs.any fun p => decide (p.1 = q)) = true
    · rw [if_pos hmem]
      induction kvs with
      | nil => simp at hmem
      | cons p r ih =>
        obtain ⟨pk, pv⟩ := p
        by_cases hp : pk = q
        · subst hp
          have hm : ((pk, pv) :: r).map (fun p => if p.1 = pk then (pk, v) else p)
              = (pk, v) :: r.map (fun p => if p.1 = pk then (pk, v) else p) := by simp
          rw [hm, lookup_cons_self]
        · simp only [List.any_cons, Bool.or_eq_true, decide_eq_true_eq] at hmem
          rcases hmem with hmem | hmem
          · exact absurd hmem hp
          · have hm : ((pk, pv) :: r).map (fun p => if p.1 = q then (q, v) else p)
                = (pk, pv) :: r.map (fun p => if p.1 = q then (q, v) else p) := by simp [hp]
            rw [hm, lookup_cons_ne (fun h => hp h.symm)]
            exact ih hmem
    · rw [if_neg hmem]
      simp only [List.any_eq_true, not_exists, not_and, decide_eq_true_eq] at hmem
      induction kvs with
      | nil => simp [lookup_cons_self]
      | cons p r ih =>
        obtain ⟨pk, pv⟩ := p
        have hp : pk ≠ q := fun hh => hmem ⟨pk, pv⟩ (by simp) hh
        simp only [List.cons_append]
        rw [lookup_cons_ne (fun h => hp h.symm)]
        exact ih fun x hx => hmem x (by simp [hx])
  · rw [if_neg hq]
    unfold setKey
    by_cases hmem : (kvs.any fun p => decide (p.1 = k)) = true
    · rw [if_pos hmem]
      exact lookup_map_overwrite hq kvs
    · rw [if_neg hmem]
      exact lookup_append_single hq kvs

theorem lookup_dict_update (base upd : List (String × PyVal))
    (nd : (upd.map Prod.fst).Nodup) (q : String) :
    List.lookup q (dict_update base upd)
      = match List.lookup q upd with
        | some v => some v
        | none => List.lookup q base := by
  induction upd generalizing base with
  | nil => simp [dict_update]
  | cons p rest ih =>
    obtain ⟨k0, v0⟩ := p
    simp only [List.map_cons, List.nodup_cons] at nd
    have hk0 : k0 ∉ rest.map Prod.fst := nd.1
    have step : dict_update base ((k0, v0) :: rest) = dict_update (setKey base k0 v0) rest := by
      simp [dict_update]
    rw [step, ih (setKey base k0 v0) nd.2]
    by_cases hq : q = k0
    · subst hq
      rw [lookup_eq_none_of_not_mem hk0, lookup_cons_self]
      simp [lookup_setKey]
    · rw [lookup_cons_ne hq]
      rcases hrest : List.lookup q rest with _ | w
      · simp [lookup_setKey, hq]
      · simp

/-- C4.  The merged parameter set contains exactly the union of the keys of
`defaults` and `overrides`: looking up any key in the merge returns the
override value when the key is overridden, the default value when only a
default exists, and nothing when neither side has the key. -/
theorem c4_merge_precedence (defaults overrides : List (String × PyVal))
    (nd : (overrides.map Prod.fst).Nodup) :
    ∀ k, List.lookup k (dict_update defaults overrides)
        = (match List.lookup k overrides with
          | some v => some v
          | none => List.lookup k defaults)
      ∧ (List.lookup k (dict_update defaults overrides) = none ↔
          List.lookup k overrides = none ∧ List.lookup k defaults = none) := by
  intro k
  have h := lookup_dict_update defaults overrides nd k
  refine ⟨h, ?_⟩
  rw [h]
  rcases List.lookup k overrides with _ | v <;> simp

/-- Witness for C4: the documented merge example
`merge({"X":"1","Y":"2"}, {"Y":"9"})`. -/
theorem c4_merge_precedence_witness :
    ([("Y", PyVal.vstr "9")].map Prod.fst).Nodup
    ∧ List.lookup "Y"
        (dict_update [("X", .vstr "1"), ("Y", .vstr "2")] [("Y", .vstr "9")])
      = some (.vstr "9")
    ∧ List.lookup "X"
        (dict_update [("X", .vstr "1"), ("Y", .vstr "2")] [("Y", .vstr "9")])
      = some (.vstr "1")
    ∧ List.lookup "Z"
        (dict_update [("X", .vstr "1"), ("Y", .vstr "2")] [("Y", .vstr "9")])
      = none := by
  refine ⟨by decide, ?_, ?_, ?_⟩
  · exact ((c4_merge_precedence _ _ (by decide) "Y").1).trans (by decide)
  · exact ((c4_merge_precedence _ _ (by decide) "X").1).trans (by decide)
  · exact ((c4_merge_precedence _ _ (by decide) "Z").1).trans (by decide)

/-- Specification of the `NoEcho` collection loop: under mapping-valued
attribute blocks it succeeds and returns exactly the names whose `NoEcho`
flag stringifies (lower-cased) to `"true"`. -/
theorem noechoNames_spec : ∀ kvs : List (String × PyVal),
    (∀ p ∈ kvs, ∃ attrs, p.2 = PyVal.vdict attrs) →
    ∃ L, noechoNames kvs = some L
      ∧ ∀ n, n ∈ L ↔ ∃ attrs, (n, PyVal.vdict attrs) ∈ kvs
          ∧ ∃ f, List.lookup "NoEcho" attrs = some f ∧ strLower (pyStr f) = "true" := by
  intro kvs
  induction kvs with
  | nil => exact fun _ => ⟨[], rfl, by simp⟩
  | cons p rest ih =>
    intro hwf
    obtain ⟨k, v⟩ := p
    obtain ⟨attrs, hv⟩ := hwf (k, v) (by simp)
    simp only at hv
    subst hv
    obtain ⟨L, hL, hmem⟩ := ih fun q hq => hwf q (by simp [hq])
    rcases hf : List.lookup "NoEcho" attrs with _ | f
    · refine ⟨L, by simp [noechoNames, hf, hL], fun n => ?_⟩
      rw [hmem n]
      constructor
      · rintro ⟨attrs2, h1, h2⟩
        exact ⟨attrs2, by simp [h1], h2⟩
      · rintro ⟨attrs2, h1, h2⟩
        simp only [List.mem_cons] at h1
        rcases h1 with h1 | h1
        · obtain ⟨he1, he2⟩ := Prod.mk.injEq .. ▸ h1
          obtain rfl : attrs2 = attrs := by
            cases he2
            rfl
          obtain ⟨f2, hf2, _⟩ := h2
          rw [hf] at hf2
          exact absurd hf2 (by simp)
        · exact ⟨attrs2, h1, h2⟩
    · by_cases ht : strLower (pyStr f) = "true"
      · refine ⟨k :: L, by simp [noechoNames, hf, ht, hL], fun n => ?_⟩
        simp only [List.mem_cons]
        constructor
        · rintro (rfl | hn)
          · exact ⟨attrs, by simp, f, hf, ht⟩
          · obtain ⟨attrs2, h1, h2⟩ := (hmem n).mp hn
            exact ⟨attrs2, by simp [h1], h2⟩
        · rintro ⟨attrs2, h1, h2⟩
          rcases h1 with h1 | h1
          · left
            exact congrArg Prod.fst h1
          · right
            exact (hmem n).mpr ⟨attrs2, h1, h2⟩
      · refine ⟨L, by simp [noechoNames, hf, ht, hL], fun n => ?_⟩
        rw [hmem n]
        constructor
        · rintro ⟨attrs2, h1, h2⟩
          exact ⟨attrs2, by simp [h1], h2⟩
        · rintro ⟨attrs2, h1, h2⟩
          simp only [List.mem_cons] at h1
          rcases h1 with h1 | h1
          · obtain ⟨he1, he2⟩ := Prod.mk.injEq .. ▸ h1
            obtain rfl : attrs2 = attrs := by
              cases he2
              rfl
            obtain ⟨f2, hf2, ht2⟩ := h2
            rw [hf] at hf2
            obtain rfl : f2 = f := by
              cases hf2
              rfl
            exact absurd ht2 ht
          · exact ⟨attrs2, h1, h2⟩

/-- C6.  For a mapping-valued parameter declaration block, the extracted
sensitive-name list contains exactly the parameter names whose `NoEcho`
flag, in string form lower-cased, equals `"true"`; a parameter with no
`NoEcho` key is never in the list. -/
theorem c6_sensitive_names (kvs : List (String × PyVal))
    (hwf : ∀ p ∈ kvs, ∃ attrs, p.2 = PyVal.vdict attrs) :
    ∃ L, cfn_get_noecho_param_names (some (.vdict kvs)) = some L
      ∧ (∀ n, n ∈ L ↔ ∃ attrs, (n, PyVal.vdict attrs) ∈ kvs
          ∧ ∃ f, List.lookup "NoEcho" attrs = some f ∧ strLower (pyStr f) = "true")
      ∧ (∀ n, (∀ attrs, (n, PyVal.vdict attrs) ∈ kvs →
          List.lookup "NoEcho" attrs = none) → n ∉ L) := by
  obtain ⟨L, hL, hmem⟩ := noechoNames_spec kvs hwf
  refine ⟨L, ?_, hmem, ?_⟩
  · cases kvs with
    | nil =>
      simp [noechoNames] at hL
      simp [cfn_get_noecho_param_names, ← hL]
    | cons p rest => simpa [cfn_get_noecho_param_names] using hL
  · intro n habsent hmemL
    obtain ⟨attrs2, h1, f, hf, _⟩ := (hmem n).mp hmemL
    rw [habsent attrs2 h1] at hf
    exact absurd hf (by simp)

/-- Witness for C6 at a concrete declaration block: `A` declares
`NoEcho: true` (boolean), `B` declares `NoEcho: "FALSE"`, `C` declares no
flag; exactly `A` is extracted. -/
theorem c6_sensitive_names_witness :
    cfn_get_noecho_param_names (some (.vdict
      [("A", .vdict [("NoEcho", .vbool true)]),
       ("B", .vdict [("NoEcho", .vstr "FALSE")]),
       ("C", .vdict [])])) = some ["A"]
    ∧ ("A" ∈ (["A"] : List String)
        ↔ ∃ attrs, ("A", PyVal.vdict attrs) ∈
            ([("A", .vdict [("NoEcho", .vbool true)]),
              ("B", .vdict [("NoEcho", .vstr "FALSE")]),
              ("C", .vdict [])] : List (String × PyVal))
          ∧ ∃ f, List.lookup "NoEcho" attrs = some f ∧ strLower (pyStr f) = "true") := by
  have hwf : ∀ p ∈ ([("A", PyVal.vdict [("NoEcho", .vbool true)]),
      ("B", .vdict [("NoEcho", .vstr "FALSE")]),
      ("C", .vdict [])] : List (String × PyVal)), ∃ attrs, p.2 = PyVal.vdict attrs := by
    intro p hp
    simp only [List.mem_cons, List.not_mem_nil, or_false] at hp
    rcases hp with rfl | rfl | rfl <;> exact ⟨_, rfl⟩
  obtain ⟨L, hL, hmem, _⟩ := c6_sensitive_names _ hwf
  have hcalc : cfn_get_noecho_param_names (some (.vdict
      [("A", .vdict [("NoEcho", .vbool true)]),
       ("B", .vdict [("NoEcho", .vstr "FALSE")]),
       ("C", .vdict [])])) = some ["A"] := by decide
  have hLA : L = ["A"] := by
    rw [hL] at hcalc
    exact Option.some_inj.mp hcalc
  exact ⟨hcalc, hLA ▸ hmem "A"⟩

/-- C8.  As stated the claim is false (see
`c8_counterexample_nonmapping_top`): only an empty mapping passes through
`get_json_or_yaml` unchanged; a top-level sequence or a top-level scalar
makes `SortedDict(**data)` raise a `TypeError` (keyword expansion requires
a mapping), so canonicalization fails rather than returning the value.
Amended claim: the empty mapping canonicalises to itself, and every
non-mapping top-level document (sequence, scalar, or null) is rejected. -/
theorem c8_edge_cases_amended :
    (canon_dict (.vdict []) = some (.vdict []))
    ∧ (∀ xs fmt, get_json_or_yaml (.vlist xs) fmt = none)
    ∧ (∀ n fmt, get_json_or_yaml (.vint n) fmt = none)
    ∧ (∀ t fmt, get_json_or_yaml (.vstr t) fmt = none)
    ∧ (∀ b fmt, get_json_or_yaml (.vbool b) fmt = none)
    ∧ (∀ fmt, get_json_or_yaml .vnull fmt = none) := by
  refine ⟨by decide, ?_, ?_, ?_, ?_, ?_⟩ <;>
    intros <;> simp [get_json_or_yaml, canon_dict]

/-- Counterexample to C8 as stated: canonicalising the empty sequence `[]`
or the top-level scalar `3` does not succeed — both are rejected — while
the empty mapping does pass through unchanged. -/
theorem c8_counterexample_nonmapping_top :
    get_json_or_yaml (.vlist []) .json = none
    ∧ get_json_or_yaml (.vint 3) .json = none
    ∧ get_json_or_yaml (.vdict []) .json = some (.jsonRes (.vdict [])) := by
  refine ⟨rfl, rfl, by decide⟩

/-- C9.  Whatever error a remote fetch raises, both gateway operations
return the empty dict instead of propagating the exception or aborting the
run, so the core only ever sees an empty remote side. -/
theorem c9_fetch_degrades_to_empty :
    ∀ msg : String,
      describe_stack (.ferr msg) = some (.vdict [])
      ∧ get_template (.ferr msg) = some (.vdict []) :=
  fun _ => ⟨rfl, rfl⟩

/-! Shape of the results produced by the three comparison modes. -/

theorem changedFlag_iff (a b : GJY) : changedFlag a b = true ↔ ¬ GJYEqP a b := by
  cases a <;> cases b <;> simp [changedFlag, GJYEqP, pyNe]

theorem gjy_vdict_some (kvs : List (String × PyVal)) (fmt : OutputFormat) :
    get_json_or_yaml (.vdict kvs) fmt = some (gjyD kvs fmt) := by
  cases fmt <;> rfl

theorem canon_dict_is_vdict {d x : PyVal} (h : canon_dict d = some x) :
    ∃ kvs, x = PyVal.vdict kvs := by
  cases d <;> simp [canon_dict] at h
  case vdict kvs =>
    rw [← h]
    simp [quote_json]

theorem template_mode_shape {ct lt : PyVal} {ig : Bool} {fmt : OutputFormat}
    {r : GJY × GJY × Bool} (h : template_mode ct lt ig fmt = some r) :
    r.2.2 = changedFlag r.1 r.2.1 := by
  unfold template_mode at h
  iterate 6 (all_goals try split at h)
  all_goals
    first
      | contradiction
      | exact Option.noConfusion h
      | (injection h with h2; subst h2; rfl)

theorem parameter_mode_shape {lt lp : PyVal} {cp : List (String × PyVal)} {ig : Bool}
    {fmt : OutputFormat} {r : GJY × GJY × Bool}
    (h : parameter_mode lt lp cp ig fmt = some r) :
    r.2.2 = changedFlag r.1 r.2.1 := by
  unfold parameter_mode at h
  iterate 6 (all_goals try split at h)
  all_goals
    first
      | contradiction
      | exact Option.noConfusion h
      | (injection h with h2; subst h2; rfl)

theorem tags_mode_shape {ctg : List (String × PyVal)} {ltg : PyVal} {fmt : OutputFormat}
    {r : GJY × GJY × Bool} (h : tags_mode ctg ltg fmt = some r) :
    r.2.2 = changedFlag r.1 r.2.1 := by
  unfold tags_mode at h
  iterate 3 (all_goals try split at h)
  all_goals
    first
      | contradiction
      | exact Option.noConfusion h
      | (injection h with h2; subst h2; rfl)

theorem main_run_shape {inp : MainInputs} {r : GJY × GJY × Bool}
    (h : main_run inp = some r) : r.2.2 = changedFlag r.1 r.2.1 := by
  unfold main_run at h
  split at h
  · exact template_mode_shape h
  · exact parameter_mode_shape h
  · exact tags_mode_shape h

/-! Lemmas about popping keys. -/

theorem popKey_cons (k : String) (p : String × PyVal) (r : List (String × PyVal)) :
    popKey k (p :: r) = if p.1 = k then popKey k r else p :: popKey k r := by
  simp only [popKey, List.filter_cons]
  by_cases hp : p.1 = k <;> simp [hp]

theorem lookup_popKey_self (k : String) (kvs : List (String × PyVal)) :
    List.lookup k (popKey k kvs) = none := by
  apply lookup_eq_none_of_not_mem
  intro hmem
  rw [List.mem_map] at hmem
  obtain ⟨p, hp, hpk⟩ := hmem
  rw [popKey, List.mem_filter] at hp
  have := hp.2
  simp only [Bool.not_eq_true', decide_eq_false_iff_not] at this
  exact this hpk

theorem lookup_popKey_ne {q k : String} (h : q ≠ k) (kvs : List (String × PyVal)) :
    List.lookup q (popKey k kvs) = List.lookup q kvs := by
  induction kvs with
  | nil => rfl
  | cons p r ih =>
    obtain ⟨pk, pv⟩ := p
    rw [popKey_cons]
    by_cases hp : pk = k
    · rw [if_pos hp, lookup_cons_ne (hp ▸ h), ih]
    · rw [if_neg hp]
      by_cases hq : q = pk
      · subst hq
        rw [lookup_cons_self, lookup_cons_self]
      · rw [lookup_cons_ne hq, lookup_cons_ne hq, ih]

theorem popAll_cons (n : String) (rest : List String) (kvs : List (String × PyVal)) :
    popAll (n :: rest) kvs = popAll rest (popKey n kvs) := by
  simp [popAll]

theorem lookup_popAll_none {names : List String} {kvs : List (String × PyVal)} {k : String}
    (h : List.lookup k kvs = none) : List.lookup k (popAll names kvs) = none := by
  induction names generalizing kvs with
  | nil => exact h
  | cons n rest ih =>
    rw [popAll_cons]
    apply ih
    by_cases hk : k = n
    · subst hk
      exact lookup_popKey_self k kvs
    · rw [lookup_popKey_ne hk]
      exact h

theorem popAll_removes {names : List String} {kvs : List (String × PyVal)} {k : String}
    (h : k ∈ names) : List.lookup k (popAll names kvs) = none := by
  induction names generalizing kvs with
  | nil => simp at h
  | cons n rest ih =>
    rw [popAll_cons]
    rcases List.mem_cons.mp h with rfl | hmem
    · exact lookup_popAll_none (lookup_popKey_self k kvs)
    · exact ih hmem

/-! Unfolding equations for the two template mode branches. -/

theorem template_mode_ignore_eq {ct lt cv lv : PyVal} (hct : canon_dict ct = some cv)
    (hlt : canon_dict lt = some lv) (fmt : OutputFormat) :
    template_mode ct lt true fmt =
      match get_json_or_yaml (popD cv) fmt, get_json_or_yaml (popD lv) fmt with
      | some cf, some lf => some (cf, lf, changedFlag cf lf)
      | _, _ => none := by
  unfold template_mode
  rw [hct, hlt]

/-- C3.  Whenever `main` produces a result in any mode, its `changed` flag
is true exactly when the two canonicalized forms differ under Python `!=`
(dict content comparison in json mode, text comparison in yaml mode); in
particular the documented scenario — before `{"A":1,"B":2}` and after
`{"B":"2","A":"1"}` — reports `changed = false` in either format. -/
theorem c3_changed_iff_differ :
    (∀ (inp : MainInputs) (cf lf : GJY) (ch : Bool),
      main_run inp = some (cf, lf, ch) → (ch = true ↔ ¬ GJYEqP cf lf))
    ∧ (∀ fmt, (template_mode (.vdict [("A", .vint 1), ("B", .vint 2)])
        (.vdict [("B", .vstr "2"), ("A", .vstr "1")]) false fmt).map (fun r => r.2.2)
        = some false) := by
  constructor
  · intro inp cf lf ch h
    have hs := main_run_shape h
    simp only at hs
    rw [hs]
    exact changedFlag_iff cf lf
  · intro fmt
    cases fmt <;> decide

/-- Witness for C3 at a concrete run: an empty remote template against a
one-key local template is reported as changed. -/
theorem c3_changed_iff_differ_witness :
    main_run ⟨.vdict [], .vdict [("k", .vstr "v")], .vdict [], [], [], .vdict [],
        false, false, .json, .template⟩
      = some (.jsonRes (.vdict []), .jsonRes (.vdict [("k", .vstr "v")]), true)
    ∧ (true = true ↔
        ¬ GJYEqP (.jsonRes (.vdict [])) (.jsonRes (.vdict [("k", .vstr "v")]))) := by
  refine ⟨by decide, ?_⟩
  exact c3_changed_iff_differ.1
    ⟨.vdict [], .vdict [("k", .vstr "v")], .vdict [], [], [], .vdict [],
      false, false, .json, .template⟩ _ _ _ (by decide)

/-- C7.  `pop('Description')` removes exactly the top-level `Description`
entry and leaves every other key's value unchanged; with the option enabled
the template branch compares the two canonicalised templates after popping
`Description` from both, so templates whose popped canonical forms coincide
report `changed = false`; with the option disabled the flag is true exactly
when the canonical forms differ. -/
theorem c7_ignore_description :
    (∀ kvs : List (String × PyVal),
      List.lookup "Description" (popKey "Description" kvs) = none
      ∧ ∀ q, q ≠ "Description" →
          List.lookup q (popKey "Description" kvs) = List.lookup q kvs)
    ∧ (∀ (ct lt cv lv : PyVal) fmt, canon_dict ct = some cv → canon_dict lt = some lv →
        popD cv = popD lv →
        ∃ res, template_mode ct lt true fmt = some res ∧ res.2.2 = false)
    ∧ (∀ (ct lt : PyVal) fmt (cf lf : GJY) (ch : Bool),
        template_mode ct lt false fmt = some (cf, lf, ch) →
        (ch = true ↔ ¬ GJYEqP cf lf)) := by
  refine ⟨?_, ?_, ?_⟩
  · intro kvs
    exact ⟨lookup_popKey_self _ kvs, fun q hq => lookup_popKey_ne hq kvs⟩
  · intro ct lt cv lv fmt hct hlt hpop
    obtain ⟨lkvs, rfl⟩ := canon_dict_is_vdict hlt
    rw [template_mode_ignore_eq hct hlt fmt, hpop]
    rcases hg : get_json_or_yaml (popD (.vdict lkvs)) fmt with _ | g
    · rw [show popD (.vdict lkvs) = .vdict (popKey "Description" lkvs) from rfl,
        gjy_vdict_some] at hg
      exact absurd hg (by simp)
    · exact ⟨(g, g, changedFlag g g), rfl, changedFlag_self g⟩
  · intro ct lt fmt cf lf ch h
    have hs := template_mode_shape h
    simp only at hs
    rw [hs]
    exact changedFlag_iff cf lf

/-- Witness for C7: two templates differing only in their top-level
`Description` report no change with the option enabled and a change with it
disabled. -/
theorem c7_ignore_description_witness :
    (∃ res, template_mode
        (.vdict [("Description", .vstr "old"), ("Resources", .vdict [])])
        (.vdict [("Description", .vstr "new"), ("Resources", .vdict [])]) true .json
        = some res ∧ res.2.2 = false)
    ∧ (template_mode
        (.vdict [("Description", .vstr "old"), ("Resources", .vdict [])])
        (.vdict [("Description", .vstr "new"), ("Resources", .vdict [])]) false .json).map
        (fun r => r.2.2) = some true := by
  constructor
  · exact c7_ignore_description.2.1 _ _
      (.vdict [("Description", .vstr "old"), ("Resources", .vdict [])])
      (.vdict [("Description", .vstr "new"), ("Resources", .vdict [])])
      .json (by decide) (by decide) (by decide)
  · decide

/-- C5.  When redaction is requested, every name in the extracted sensitive
list is removed (by the shared pop loop) from a parameter set, and the
parameter branch with `ignore_hidden_params` compares exactly the two sets
obtained by popping the same sensitive list from the canonicalised remote
set and from the merged local set; two sides whose popped sets coincide
report `changed = false`, and in the concrete secret scenario redaction
yields `changed = false` while disabling it yields `changed = true`. -/
theorem c5_redaction :
    (∀ (names : List String) (kvs : List (String × PyVal)) k, k ∈ names →
      List.lookup k (popAll names kvs) = none)
    ∧ (∀ (lt lp : PyVal) (cp : List (String × PyVal)) fmt ppkvs ltkvs templ_def hidden cpkvs,
        canon_dict lp = some (.vdict ppkvs) →
        canon_dict lt = some (.vdict ltkvs) →
        cfn_get_default_value_params (List.lookup "Parameters" ltkvs) = some templ_def →
        cfn_get_noecho_param_names (List.lookup "Parameters" ltkvs) = some hidden →
        canon_dict (.vdict cp) = some (.vdict cpkvs) →
        parameter_mode lt lp cp true fmt
          = some (gjyD (popAll hidden cpkvs) fmt,
              gjyD (popAll hidden (dict_update templ_def ppkvs)) fmt,
              changedFlag (gjyD (popAll hidden cpkvs) fmt)
                (gjyD (popAll hidden (dict_update templ_def ppkvs)) fmt)))
    ∧ (∀ (hidden : List String) (s1 s2 : List (String × PyVal)) fmt,
        popAll hidden s1 = popAll hidden s2 →
        changedFlag (gjyD (popAll hidden s1) fmt) (gjyD (popAll hidden s2) fmt) = false)
    ∧ ((parameter_mode
          (.vdict [("Parameters", .vdict [("Secret", .vdict [("NoEcho", .vstr "true")])])])
          (.vdict [("Secret", .vstr "***"), ("Other", .vstr "b")])
          [("Secret", .vstr "aaa"), ("Other", .vstr "b")] true .json).map (fun r => r.2.2)
        = some false)
    ∧ ((parameter_mode
          (.vdict [("Parameters", .vdict [("Secret", .vdict [("NoEcho", .vstr "true")])])])
          (.vdict [("Secret", .vstr "***"), ("Other", .vstr "b")])
          [("Secret", .vstr "aaa"), ("Other", .vstr "b")] false .json).map (fun r => r.2.2)
        = some true) := by
  refine ⟨?_, ?_, ?_, by decide, by decide⟩
  · intro names kvs k hk
    exact popAll_removes hk
  · intro lt lp cp fmt ppkvs ltkvs templ_def hidden cpkvs h1 h2 h3 h4 h5
    simp only [parameter_mode, h1, h2, h3, h4, h5, gjy_vdict_some]
  · intro hidden s1 s2 fmt he
    rw [he]
    exact changedFlag_self _

/-- Witness for C5 at the concrete secret scenario. -/
theorem c5_redaction_witness :
    ("Secret" ∈ (["Secret"] : List String)
      ∧ List.lookup "Secret" (popAll ["Secret"]
          [("Other", PyVal.vstr "b"), ("Secret", PyVal.vstr "***")]) = none)
    ∧ parameter_mode
        (.vdict [("Parameters", .vdict [("Secret", .vdict [("NoEcho", .vstr "true")])])])
        (.vdict [("Secret", .vstr "***"), ("Other", .vstr "b")])
        [("Secret", .vstr "aaa"), ("Other", .vstr "b")] true .json
      = some (gjyD (popAll ["Secret"] [("Other", .vstr "b"), ("Secret", .vstr "aaa")]) .json,
          gjyD (popAll ["Secret"]
            (dict_update [] [("Other", .vstr "b"), ("Secret", .vstr "***")])) .json,
          changedFlag
            (gjyD (popAll ["Secret"] [("Other", .vstr "b"), ("Secret", .vstr "aaa")]) .json)
            (gjyD (popAll ["Secret"]
              (dict_update [] [("Other", .vstr "b"), ("Secret", .vstr "***")])) .json)) := by
  constructor
  · exact ⟨by decide, c5_redaction.1 ["Secret"] _ "Secret" (by decide)⟩
  · exact c5_redaction.2.1 _ _ _ .json
      [("Other", .vstr "b"), ("Secret", .vstr "***")]
      [("Parameters", .vdict [("Secret", .vdict [("NoEcho", .vstr "true")])])]
      [] ["Secret"]
      [("Other", .vstr "b"), ("Secret", .vstr "aaa")]
      (by decide) (by decide) (by decide) (by decide) (by decide)
